import Mathlib

/-!
Shallow embedding of the numeric core of the TikTok stock investment video
generator: the monthly investment-growth simulator (`calculateInvestmentGrowth`),
the cross-granularity chart interpolator (`interpolateChartData`), and the
frame-pacing portion of `generateVideo` (`generateVideoFrames`).

Prices and money amounts are modelled as exact rationals, share counts as
integers (JavaScript `Math.floor` is `Int.floor`, rounding toward negative
infinity), period keys (the `date` strings such as "Jan 2020") as abstract
labels in `ℕ`, and parsed calendar dates (`new Date(formattedDate)`) as integer
timestamps in `ℤ`.
-/

/-- Embedding of the source's `StockDataPoint`: one price/dividend observation.
`date` is the short period-key label, `formattedDate` the parsed calendar date,
`value` the price, `dividend` the dividend per share for the period. -/
structure StockDataPoint where
  date : ℕ
  formattedDate : ℤ
  value : ℚ
  dividend : ℚ
  deriving DecidableEq

/-- Embedding of the source's `MonthlyDataPoint`: simulator output for one month. -/
structure MonthlyDataPoint where
  date : ℕ
  formattedDate : ℤ
  stockPrice : ℚ
  shares : ℤ
  totalInvested : ℚ
  portfolioValue : ℚ
  totalDividends : ℚ
  cashBalance : ℚ
  deriving DecidableEq

/-- The four mutable running totals of `calculateInvestmentGrowth`
(`totalShares`, `cashBalance`, `totalInvested`, `totalDividendsReceived`). -/
structure SimState where
  totalShares : ℤ
  cashBalance : ℚ
  totalInvested : ℚ
  totalDividendsReceived : ℚ
  deriving DecidableEq

/-- One iteration of the `data.map` body of `calculateInvestmentGrowth`:
add the monthly investment, pay the dividend when `dividend > 0` and
`totalShares > 0`, buy `Math.floor(cashBalance / value)` whole shares when that
is positive, then emit the `MonthlyDataPoint` for the period. -/
def stepPeriod (monthlyInvestment : ℚ) (s : SimState) (dp : StockDataPoint) :
    SimState × MonthlyDataPoint :=
  let cash1 := s.cashBalance + monthlyInvestment
  let invested1 := s.totalInvested + monthlyInvestment
  let dividendAmount := dp.dividend * (s.totalShares : ℚ)
  let cash2 := if dp.dividend > 0 ∧ s.totalShares > 0 then cash1 + dividendAmount else cash1
  let div2 := if dp.dividend > 0 ∧ s.totalShares > 0 then
      s.totalDividendsReceived + dividendAmount else s.totalDividendsReceived
  let sharesToBuy : ℤ := ⌊cash2 / dp.value⌋
  let cash3 := if sharesToBuy > 0 then cash2 - (sharesToBuy : ℚ) * dp.value else cash2
  let shares3 := if sharesToBuy > 0 then s.totalShares + sharesToBuy else s.totalShares
  let portfolioValue := dp.value * (shares3 : ℚ) + cash3
  (⟨shares3, cash3, invested1, div2⟩,
   ⟨dp.date, dp.formattedDate, dp.value, shares3, invested1, portfolioValue, div2, cash3⟩)

/-- The `data.map` loop of `calculateInvestmentGrowth`, threading the running
totals through `stepPeriod`. -/
def runSim (monthlyInvestment : ℚ) : SimState → List StockDataPoint → List MonthlyDataPoint
  | _, [] => []
  | s, dp :: rest =>
      (stepPeriod monthlyInvestment s dp).2 ::
        runSim monthlyInvestment (stepPeriod monthlyInvestment s dp).1 rest

/-- The seed step of `calculateInvestmentGrowth`: when `initialBalance > 0`,
buy `Math.floor(initialBalance / data[0].value)` initial shares before the
first period.  `totalInvested` starts at `initialBalance` in every case. -/
def initialState (initialBalance firstPrice : ℚ) : SimState :=
  if initialBalance > 0 then
    let initialSharesToBuy : ℤ := ⌊initialBalance / firstPrice⌋
    if initialSharesToBuy > 0 then
      ⟨initialSharesToBuy, initialBalance - (initialSharesToBuy : ℚ) * firstPrice,
       initialBalance, 0⟩
    else ⟨0, initialBalance, initialBalance, 0⟩
  else ⟨0, initialBalance, initialBalance, 0⟩

/-- Embedding of `calculateInvestmentGrowth`.  On an empty series the source
throws a `TypeError` (it reads `data[0].formattedDate` unconditionally), which
is modelled as `none`; it performs no other input validation. -/
def calculateInvestmentGrowth (data : List StockDataPoint)
    (monthlyInvestment initialBalance : ℚ) : Option (List MonthlyDataPoint) :=
  match data with
  | [] => none
  | d0 :: _ => some (runSim monthlyInvestment (initialState initialBalance d0.value) data)

/-- Spec-side step (for the ordering refinement of C1): add the per-period
contribution to cash and to the cumulative contributed total. -/
def specAddContribution (contribution : ℚ) (s : SimState) : SimState :=
  ⟨s.totalShares, s.cashBalance + contribution, s.totalInvested + contribution,
   s.totalDividendsReceived⟩

/-- Spec-side step (for the ordering refinement of C1): when
`dividendPerShare > 0` and shares held > 0, add `dividendPerShare * sharesHeld`
to cash and to cumulative dividends. -/
def specPayDividend (dp : StockDataPoint) (s : SimState) : SimState :=
  if dp.dividend > 0 ∧ s.totalShares > 0 then
    ⟨s.totalShares, s.cashBalance + dp.dividend * (s.totalShares : ℚ),
     s.totalInvested, s.totalDividendsReceived + dp.dividend * (s.totalShares : ℚ)⟩
  else s

/-- Spec-side step (for the ordering refinement of C1): the single
whole-share floor-division purchase. -/
def specBuyWholeShares (dp : StockDataPoint) (s : SimState) : SimState :=
  let sharesToBuy : ℤ := ⌊s.cashBalance / dp.value⌋
  if sharesToBuy > 0 then
    ⟨s.totalShares + sharesToBuy, s.cashBalance - (sharesToBuy : ℚ) * dp.value,
     s.totalInvested, s.totalDividendsReceived⟩
  else s

/-- Building the emitted `MonthlyDataPoint` from the post-purchase state, with
`portfolioValue = price * sharesHeld + cashBalance`. -/
def emitState (dp : StockDataPoint) (s : SimState) : MonthlyDataPoint :=
  ⟨dp.date, dp.formattedDate, dp.value, s.totalShares, s.totalInvested,
   dp.value * (s.totalShares : ℚ) + s.cashBalance, s.totalDividendsReceived, s.cashBalance⟩

/-- Embedding of the source's `ChartDataPoint`: one display point.  The source
declares `shares` and `totalDividends` as optional fields; `interpolateChartData`
leaves both unset in every branch, which is modelled by `Option`. -/
structure ChartDataPoint where
  date : ℕ
  formattedDate : ℤ
  portfolioValue : ℚ
  totalInvested : ℚ
  shares : Option ℤ
  totalDividends : Option ℚ
  stockPrice : ℚ
  deriving DecidableEq

/-- The default `MonthlyDataPoint` used to totalise the source's unchecked
`monthlyData[matchingMonthlyIndex]` access (never reached when `monthlyData`
is non-empty, since the scan only returns in-bounds indices then). -/
def dummyMonthly : MonthlyDataPoint := ⟨0, 0, 0, 0, 0, 0, 0, 0⟩

/-- The linear scan of `interpolateChartData`: starting from `matchingMonthlyIndex = 0`,
walk the monthly series in order, record index `i` whenever
`monthlyData[i].formattedDate <= periodDate`, and `break` at the first later date.
`i` is the index of the current head, `best` the last recorded index. -/
def scanMatch (periodDate : ℤ) : List MonthlyDataPoint → ℕ → ℕ → ℕ
  | [], _, best => best
  | m :: rest, i, best =>
      if m.formattedDate ≤ periodDate then scanMatch periodDate rest (i + 1) i else best

/-- The `matchingMonthlyIndex` computed for one period point. -/
def matchingMonthlyIndex (monthlyData : List MonthlyDataPoint) (periodDate : ℤ) : ℕ :=
  scanMatch periodDate monthlyData 0 0

/-- The body of the `periodStockData.map` in `interpolateChartData`: find the
matching monthly point; if the period keys coincide copy `portfolioValue` and
`totalInvested` from it, otherwise revalue `shares * price + cashBalance`.
Neither branch sets the optional `shares`/`totalDividends` fields. -/
def interpolatePoint (monthlyData : List MonthlyDataPoint) (periodPoint : StockDataPoint) :
    ChartDataPoint :=
  let idx := matchingMonthlyIndex monthlyData periodPoint.formattedDate
  let prevMonthly := monthlyData.getD idx dummyMonthly
  if periodPoint.date = prevMonthly.date then
    ⟨periodPoint.date, periodPoint.formattedDate, prevMonthly.portfolioValue,
     prevMonthly.totalInvested, none, none, periodPoint.value⟩
  else
    ⟨periodPoint.date, periodPoint.formattedDate,
     (prevMonthly.shares : ℚ) * periodPoint.value + prevMonthly.cashBalance,
     prevMonthly.totalInvested, none, none, periodPoint.value⟩

/-- Embedding of `interpolateChartData`. -/
def interpolateChartData (periodStockData : List StockDataPoint)
    (monthlyData : List MonthlyDataPoint) : List ChartDataPoint :=
  periodStockData.map (interpolatePoint monthlyData)

/-- One frame descriptor produced by the frame loop of `generateVideo`: the
cumulative slice of chart data passed to `updateChart` plus the final-frame flag. -/
structure FrameDescriptor where
  frameData : List ChartDataPoint
  isFinal : Bool
  deriving DecidableEq

/-- The index sequence of the loop `for (i = 0; i < N; i += step)`.  The
`0 < step` guard mirrors `frameStep = Math.max(1, ...) >= 1`. -/
def loopIndices (N step i : ℕ) : List ℕ :=
  if _h : 0 < step ∧ i < N then i :: loopIndices N step (i + step) else []
termination_by N - i
decreasing_by simp_wf; omega

/-- The chart frame budget: `Math.floor(duration * 30)` with `fps = 30`. -/
def chartFramesOf (duration : ℚ) : ℤ := ⌊duration * 30⌋

/-- Embedding of the frame-pacing portion of `generateVideo`: growth frames for
indices `0, frameStep, 2·frameStep, …` below `chartData.length`, each carrying
the cumulative prefix `chartData.slice(0, i + 1)` with `isFinal = false`,
followed by `endingFrames` freeze frames carrying the whole series with
`isFinal = true`.  When `chartFrames = 0` the JavaScript division by zero makes
`frameStep` infinite (or `NaN` on an empty series), so the loop emits at most
the frame for index 0; that corner is modelled explicitly. -/
def generateVideoFrames (chartData : List ChartDataPoint)
    (chartDuration endingDuration : ℚ) : List FrameDescriptor :=
  let chartFrames : ℤ := chartFramesOf chartDuration
  let endingFrames : ℕ := (⌊endingDuration * 30⌋).toNat
  let growth : List FrameDescriptor :=
    if chartFrames = 0 then
      if chartData.length = 0 then [] else [⟨chartData.take 1, false⟩]
    else
      let frameStep : ℕ := (max 1 ⌊(chartData.length : ℚ) / (chartFrames : ℚ)⌋).toNat
      (loopIndices chartData.length frameStep 0).map fun i => ⟨chartData.take (i + 1), false⟩
  growth ++ (List.range endingFrames).map fun _ => ⟨chartData, true⟩

theorem stepPeriod_snd_eq (inv : ℚ) (s : SimState) (dp : StockDataPoint) :
    (stepPeriod inv s dp).2 = emitState dp (stepPeriod inv s dp).1 := rfl

theorem stepPeriod_order (inv : ℚ) (s : SimState) (dp : StockDataPoint) :
    (stepPeriod inv s dp).1 =
      specBuyWholeShares dp (specPayDividend dp (specAddContribution inv s)) := by
  unfold stepPeriod specBuyWholeShares specPayDividend specAddContribution
  dsimp only
  split_ifs <;> rfl

theorem stepPeriod_shares_le (inv : ℚ) (s : SimState) (dp : StockDataPoint) :
    s.totalShares ≤ (stepPeriod inv s dp).1.totalShares := by
  unfold stepPeriod
  dsimp only
  split_ifs <;> omega

theorem stepPeriod_invested_eq (inv : ℚ) (s : SimState) (dp : StockDataPoint) :
    (stepPeriod inv s dp).1.totalInvested = s.totalInvested + inv := rfl

theorem stepPeriod_div_le (inv : ℚ) (s : SimState) (dp : StockDataPoint) :
    s.totalDividendsReceived ≤ (stepPeriod inv s dp).1.totalDividendsReceived := by
  unfold stepPeriod
  dsimp only
  split_ifs with h
  · have hpos : 0 < dp.dividend * (s.totalShares : ℚ) :=
      mul_pos h.1 (by exact_mod_cast h.2)
    linarith
  · exact le_refl _

theorem stepPeriod_cash_bounds (inv : ℚ) (s : SimState) (dp : StockDataPoint)
    (hp : 0 < dp.value) (hc : 0 ≤ s.cashBalance) (hi : 0 ≤ inv) :
    0 ≤ (stepPeriod inv s dp).1.cashBalance ∧
      (stepPeriod inv s dp).1.cashBalance < dp.value := by
  unfold stepPeriod
  dsimp only
  have hc2 : 0 ≤ (if dp.dividend > 0 ∧ s.totalShares > 0 then
      s.cashBalance + inv + dp.dividend * (s.totalShares : ℚ)
    else s.cashBalance + inv) := by
    split_ifs with h
    · have hpos : 0 < dp.dividend * (s.totalShares : ℚ) :=
        mul_pos h.1 (by exact_mod_cast h.2)
      linarith
    · linarith
  set cash2 := (if dp.dividend > 0 ∧ s.totalShares > 0 then
      s.cashBalance + inv + dp.dividend * (s.totalShares : ℚ)
    else s.cashBalance + inv) with hcash2
  split_ifs with hn
  · constructor
    · have h1 : ((⌊cash2 / dp.value⌋ : ℤ) : ℚ) ≤ cash2 / dp.value := Int.floor_le _
      have h2 : ((⌊cash2 / dp.value⌋ : ℤ) : ℚ) * dp.value ≤ cash2 := by
        rw [← le_div_iff₀ hp]; exact h1
      linarith
    · have h1 : cash2 / dp.value < (⌊cash2 / dp.value⌋ : ℚ) + 1 := Int.lt_floor_add_one _
      have h2 : cash2 < ((⌊cash2 / dp.value⌋ : ℚ) + 1) * dp.value := by
        rw [← div_lt_iff₀ hp]; exact h1
      nlinarith
  · constructor
    · exact hc2
    · push_neg at hn
      have h1 : (⌊cash2 / dp.value⌋ : ℚ) ≤ 0 := by exact_mod_cast hn
      have h2 : cash2 / dp.value < (⌊cash2 / dp.value⌋ : ℚ) + 1 := Int.lt_floor_add_one _
      have h3 : cash2 / dp.value < 1 := by linarith
      have h4 : cash2 < 1 * dp.value := by rw [← div_lt_iff₀ hp]; exact h3
      linarith

theorem emitState_shares (dp : StockDataPoint) (s : SimState) :
    (emitState dp s).shares = s.totalShares := rfl

theorem emitState_invested (dp : StockDataPoint) (s : SimState) :
    (emitState dp s).totalInvested = s.totalInvested := rfl

theorem emitState_dividends (dp : StockDataPoint) (s : SimState) :
    (emitState dp s).totalDividends = s.totalDividendsReceived := rfl

theorem emitState_cash (dp : StockDataPoint) (s : SimState) :
    (emitState dp s).cashBalance = s.cashBalance := rfl

theorem emitState_price (dp : StockDataPoint) (s : SimState) :
    (emitState dp s).stockPrice = dp.value := rfl

theorem runSim_length (inv : ℚ) :
    ∀ (data : List StockDataPoint) (s : SimState), (runSim inv s data).length = data.length := by
  intro data
  induction data with
  | nil => intro s; rfl
  | cons dp rest ih => intro s; simp [runSim, ih]

theorem runSim_cash (inv : ℚ) (hi : 0 ≤ inv) :
    ∀ (data : List StockDataPoint) (s : SimState),
      (∀ dp ∈ data, 0 < dp.value) → 0 ≤ s.cashBalance →
      ∀ m ∈ runSim inv s data, 0 ≤ m.cashBalance ∧ m.cashBalance < m.stockPrice := by
  intro data
  induction data with
  | nil => intro s _ _ m hm; simp [runSim] at hm
  | cons dp rest ih =>
      intro s hpos hc m hm
      have hp : 0 < dp.value := hpos dp (List.mem_cons_self dp rest)
      have hb := stepPeriod_cash_bounds inv s dp hp hc hi
      rw [runSim] at hm
      rcases List.mem_cons.mp hm with rfl | hm
      · rw [stepPeriod_snd_eq, emitState_cash, emitState_price]
        exact hb
      · exact ih (stepPeriod inv s dp).1
          (fun d hd => hpos d (List.mem_cons_of_mem dp hd)) hb.1 m hm

theorem runSim_chain (inv : ℚ) (hi : 0 ≤ inv) :
    ∀ (data : List StockDataPoint) (s : SimState),
      List.Chain' (fun a b => a.shares ≤ b.shares ∧ a.totalInvested ≤ b.totalInvested ∧
        a.totalDividends ≤ b.totalDividends) (runSim inv s data) := by
  intro data
  induction data with
  | nil => intro s; simp [runSim]
  | cons dp rest ih =>
      intro s
      rw [runSim]
      cases rest with
      | nil => simp [runSim]
      | cons dp2 rest2 =>
          rw [runSim]
          refine List.Chain'.cons ?_ ?_
          · rw [stepPeriod_snd_eq, stepPeriod_snd_eq]
            rw [emitState_shares, emitState_shares, emitState_invested, emitState_invested,
              emitState_dividends, emitState_dividends]
            refine ⟨stepPeriod_shares_le inv (stepPeriod inv s dp).1 dp2, ?_,
              stepPeriod_div_le inv (stepPeriod inv s dp).1 dp2⟩
            simp only [stepPeriod_invested_eq]
            linarith
          · have := ih (stepPeriod inv s dp).1
            rw [runSim] at this
            exact this

theorem runSim_invested (inv : ℚ) :
    ∀ (data : List StockDataPoint) (s : SimState) (i : ℕ)
      (hi : i < (runSim inv s data).length),
      ((runSim inv s data).get ⟨i, hi⟩).totalInvested = s.totalInvested + inv * (i + 1) := by
  intro data
  induction data with
  | nil => intro s i hi; simp [runSim] at hi
  | cons dp rest ih =>
      intro s i hi
      cases i with
      | zero =>
          have h0 : (runSim inv s (dp :: rest)).get ⟨0, hi⟩ = (stepPeriod inv s dp).2 := rfl
          rw [h0, stepPeriod_snd_eq, emitState_invested, stepPeriod_invested_eq]
          push_cast
          ring
      | succ j =>
          have hj : j < (runSim inv (stepPeriod inv s dp).1 rest).length := by
            have hlen : (runSim inv s (dp :: rest)).length =
                (runSim inv (stepPeriod inv s dp).1 rest).length + 1 := rfl
            omega
          have hstep : (runSim inv s (dp :: rest)).get ⟨j + 1, hi⟩ =
              (runSim inv (stepPeriod inv s dp).1 rest).get ⟨j, hj⟩ := rfl
          rw [hstep, ih _ j hj, stepPeriod_invested_eq]
          push_cast
          ring

theorem initialState_invested (B p : ℚ) : (initialState B p).totalInvested = B := by
  unfold initialState
  dsimp only
  split_ifs <;> rfl

theorem initialState_cash (B p : ℚ) (hB : 0 ≤ B) (hp : 0 < p) :
    0 ≤ (initialState B p).cashBalance := by
  unfold initialState
  dsimp only
  split_ifs with h1 h2
  · have hle : ((⌊B / p⌋ : ℤ) : ℚ) ≤ B / p := Int.floor_le _
    have h2' : ((⌊B / p⌋ : ℤ) : ℚ) * p ≤ B := by
      rw [← le_div_iff₀ hp]; exact hle
    show 0 ≤ B - (⌊B / p⌋ : ℚ) * p
    linarith
  · exact hB
  · exact hB

set_option maxRecDepth 4000 in
/-- C1: In every period the simulator adds the contribution to cash, then pays
the dividend (`dividendPerShare * sharesHeld`, only when `dividendPerShare > 0`
and `sharesHeld > 0`), then performs the single floor-division whole-share
purchase, emitting the state with `portfolioValue = price * sharesHeld + cash`;
for monthly prices [10, 10, 20], contribution 100, initial balance 0 the final
state has 25 shares, cash 0, portfolioValue 500, totalContributed 300, and for
monthly prices [10] with a 1.00/share dividend and 0 shares at payout time the
dividend payout is 0. -/
theorem simulator_period_ordering_and_scenarios :
    (∀ (inv : ℚ) (s : SimState) (dp : StockDataPoint),
        stepPeriod inv s dp =
          (specBuyWholeShares dp (specPayDividend dp (specAddContribution inv s)),
            emitState dp (specBuyWholeShares dp (specPayDividend dp (specAddContribution inv s)))))
    ∧ calculateInvestmentGrowth [⟨0, 0, 10, 0⟩, ⟨1, 1, 10, 0⟩, ⟨2, 2, 20, 0⟩] 100 0 =
        some [⟨0, 0, 10, 10, 100, 100, 0, 0⟩, ⟨1, 1, 10, 20, 200, 200, 0, 0⟩,
          ⟨2, 2, 20, 25, 300, 500, 0, 0⟩]
    ∧ calculateInvestmentGrowth [⟨0, 0, 10, 1⟩] 100 0 =
        some [⟨0, 0, 10, 10, 100, 100, 0, 0⟩] := by
  refine ⟨fun inv s dp => ?_, by with_unfolding_all decide, by with_unfolding_all decide⟩
  rw [Prod.ext_iff]
  exact ⟨stepPeriod_order inv s dp,
    by rw [stepPeriod_snd_eq, stepPeriod_order]⟩

/-- C2: for a series of positive prices with non-negative contribution and
initial balance, every emitted state has `0 ≤ cashBalance < stockPrice` and
`shares`, `totalInvested`, `totalDividends` are non-decreasing along the series. -/
theorem portfolio_invariants (data : List StockDataPoint) (inv B : ℚ)
    (out : List MonthlyDataPoint)
    (hpos : ∀ dp ∈ data, 0 < dp.value) (hinv : 0 ≤ inv) (hB : 0 ≤ B)
    (hout : calculateInvestmentGrowth data inv B = some out) :
    (∀ m ∈ out, 0 ≤ m.cashBalance ∧ m.cashBalance < m.stockPrice) ∧
      List.Chain' (fun a b => a.shares ≤ b.shares ∧ a.totalInvested ≤ b.totalInvested ∧
        a.totalDividends ≤ b.totalDividends) out := by
  cases data with
  | nil => simp [calculateInvestmentGrowth] at hout
  | cons d0 rest =>
      simp only [calculateInvestmentGrowth, Option.some.injEq] at hout
      subst hout
      have hp0 : 0 < d0.value := hpos d0 (List.mem_cons_self _ _)
      exact ⟨runSim_cash inv hinv _ _ hpos (initialState_cash B d0.value hB hp0),
        runSim_chain inv hinv _ _⟩

set_option maxRecDepth 4000 in
theorem portfolio_invariants_witness :
    (∀ m ∈ [(⟨0, 0, 10, 10, 100, 100, 0, 0⟩ : MonthlyDataPoint)],
        0 ≤ m.cashBalance ∧ m.cashBalance < m.stockPrice) ∧
      List.Chain' (fun a b => a.shares ≤ b.shares ∧ a.totalInvested ≤ b.totalInvested ∧
        a.totalDividends ≤ b.totalDividends)
        [(⟨0, 0, 10, 10, 100, 100, 0, 0⟩ : MonthlyDataPoint)] :=
  portfolio_invariants [⟨0, 0, 10, 0⟩] 100 0 [⟨0, 0, 10, 10, 100, 100, 0, 0⟩]
    (by with_unfolding_all decide) (by with_unfolding_all decide) (by with_unfolding_all decide) (by with_unfolding_all decide)

/-- C3: the i-th emitted state (0-based) has
`totalInvested = B + C * (i + 1)`; in particular the last entry has
`totalInvested = B + C * k` for a series of `k` periods. -/
theorem totalContributed_formula (data : List StockDataPoint) (inv B : ℚ)
    (out : List MonthlyDataPoint)
    (hout : calculateInvestmentGrowth data inv B = some out) :
    (∀ i (hi : i < out.length), (out.get ⟨i, hi⟩).totalInvested = B + inv * ((i : ℚ) + 1))
    ∧ ∀ h : out ≠ [], (out.getLast h).totalInvested = B + inv * (data.length : ℚ) := by
  cases data with
  | nil => simp [calculateInvestmentGrowth] at hout
  | cons d0 rest =>
      simp only [calculateInvestmentGrowth, Option.some.injEq] at hout
      subst hout
      have hmain : ∀ i (hi : i < (runSim inv (initialState B d0.value) (d0 :: rest)).length),
          ((runSim inv (initialState B d0.value) (d0 :: rest)).get ⟨i, hi⟩).totalInvested =
            B + inv * ((i : ℚ) + 1) := by
        intro i hi
        rw [runSim_invested, initialState_invested]
      refine ⟨hmain, fun h => ?_⟩
      rw [List.getLast_eq_get]
      have hlen : (runSim inv (initialState B d0.value) (d0 :: rest)).length =
          (d0 :: rest).length := runSim_length inv _ _
      have hpos : 0 < (runSim inv (initialState B d0.value) (d0 :: rest)).length :=
        List.length_pos.mpr h
      rw [hmain _ _]
      have hcast : (((runSim inv (initialState B d0.value) (d0 :: rest)).length - 1 : ℕ) : ℚ) + 1 =
          (((d0 :: rest).length : ℕ) : ℚ) := by
        rw [← hlen]
        have := Nat.succ_pred_eq_of_pos hpos
        exact_mod_cast this
      rw [hcast]

set_option maxRecDepth 4000 in
theorem totalContributed_formula_witness :
    (([⟨0, 0, 10, 10, 100, 100, 0, 0⟩, ⟨1, 1, 10, 20, 200, 200, 0, 0⟩] :
        List MonthlyDataPoint).getD 1 dummyMonthly).totalInvested = 0 + 100 * ((1 : ℚ) + 1) := by
  have h := (totalContributed_formula [⟨0, 0, 10, 0⟩, ⟨1, 1, 10, 0⟩] 100 0
    [⟨0, 0, 10, 10, 100, 100, 0, 0⟩, ⟨1, 1, 10, 20, 200, 200, 0, 0⟩] (by with_unfolding_all decide)).1 1 (by with_unfolding_all decide)
  simpa using h

set_option maxRecDepth 4000 in
/-- C4 counterexample: the simulator performs no input validation — with a
negative contribution, or with a non-positive price, it still produces a full
series instead of failing. -/
theorem no_validation_counterexample :
    (calculateInvestmentGrowth [⟨0, 0, 10, 0⟩] (-5) 0).isSome = true
    ∧ (calculateInvestmentGrowth [⟨0, 0, -1, 0⟩] 100 0).isSome = true := by with_unfolding_all decide

/-- C4 amended: `calculateInvestmentGrowth` fails only on an empty input series
(a runtime `TypeError` from reading `data[0]`, not a typed `InvalidInputError`);
non-positive prices and negative contribution or balance are accepted without
validation and a series is produced. -/
theorem simulator_fails_only_on_empty (data : List StockDataPoint) (inv B : ℚ) :
    calculateInvestmentGrowth data inv B = none ↔ data = [] := by
  cases data <;> simp [calculateInvestmentGrowth]

/-! ### Helper lemmas for the interpolator -/

theorem scanMatch_latest (d : ℤ) :
    ∀ (l : List MonthlyDataPoint) (j : ℕ)
      (_hs : List.Pairwise (fun a b => a.formattedDate < b.formattedDate) l)
      (hj : j < l.length)
      (_hle : (l.get ⟨j, hj⟩).formattedDate ≤ d)
      (_hmax : ∀ k (hk : k < l.length), (l.get ⟨k, hk⟩).formattedDate ≤ d → k ≤ j)
      (i best : ℕ), scanMatch d l i best = i + j := by
  intro l
  induction l with
  | nil => intro j _ hj; simp at hj
  | cons m rest ih =>
      intro j hs hj hle hmax i best
      have hm : m.formattedDate ≤ d := by
        cases j with
        | zero => exact hle
        | succ j' =>
            have hj' : j' < rest.length := Nat.lt_of_succ_lt_succ hj
            have h1 : m.formattedDate < (rest.get ⟨j', hj'⟩).formattedDate :=
              (List.pairwise_cons.mp hs).1 _ (List.get_mem rest j' hj')
            have h2 : ((m :: rest).get ⟨j' + 1, hj⟩) = rest.get ⟨j', hj'⟩ := rfl
            rw [h2] at hle
            linarith
      rw [scanMatch, if_pos hm]
      cases j with
      | zero =>
          cases rest with
          | nil => simp [scanMatch]
          | cons m2 rest2 =>
              have hm2 : ¬ m2.formattedDate ≤ d := by
                intro hcon
                have h1 : ((m :: m2 :: rest2).get ⟨1, by simp⟩).formattedDate ≤ d := hcon
                have := hmax 1 (by simp) h1
                omega
              rw [scanMatch, if_neg hm2]
              omega
      | succ j' =>
          have hj' : j' < rest.length := Nat.lt_of_succ_lt_succ hj
          have hle' : (rest.get ⟨j', hj'⟩).formattedDate ≤ d := hle
          have hmax' : ∀ k (hk : k < rest.length), (rest.get ⟨k, hk⟩).formattedDate ≤ d → k ≤ j' := by
            intro k hk hkle
            have h1 : ((m :: rest).get ⟨k + 1, Nat.succ_lt_succ hk⟩).formattedDate ≤ d := hkle
            have := hmax (k + 1) (Nat.succ_lt_succ hk) h1
            omega
          rw [ih j' (List.pairwise_cons.mp hs).2 hj' hle' hmax' (i + 1) i]
          omega

theorem matchingMonthlyIndex_latest (monthly : List MonthlyDataPoint) (d : ℤ) (j : ℕ)
    (hs : List.Pairwise (fun a b => a.formattedDate < b.formattedDate) monthly)
    (hj : j < monthly.length)
    (hle : (monthly.get ⟨j, hj⟩).formattedDate ≤ d)
    (hmax : ∀ k (hk : k < monthly.length), (monthly.get ⟨k, hk⟩).formattedDate ≤ d → k ≤ j) :
    matchingMonthlyIndex monthly d = j := by
  have := scanMatch_latest d monthly j hs hj hle hmax 0 0
  simpa [matchingMonthlyIndex] using this

/-- C8: for an intra-month period point (period key matching no monthly key),
with `m` the latest monthly state whose date is ≤ the point's date, the emitted
display point revalues holdings as `m.shares * price + m.cashBalance`, keeps
`m.totalInvested`, and leaves `shares`/`totalDividends` unset. -/
theorem interpolate_intra_month (monthly : List MonthlyDataPoint) (p : StockDataPoint) (j : ℕ)
    (hs : List.Pairwise (fun a b => a.formattedDate < b.formattedDate) monthly)
    (hj : j < monthly.length)
    (hle : (monthly.get ⟨j, hj⟩).formattedDate ≤ p.formattedDate)
    (hmax : ∀ k (hk : k < monthly.length),
      (monthly.get ⟨k, hk⟩).formattedDate ≤ p.formattedDate → k ≤ j)
    (hkey : ∀ m ∈ monthly, p.date ≠ m.date) :
    interpolatePoint monthly p =
      ⟨p.date, p.formattedDate,
        ((monthly.get ⟨j, hj⟩).shares : ℚ) * p.value + (monthly.get ⟨j, hj⟩).cashBalance,
        (monthly.get ⟨j, hj⟩).totalInvested, none, none, p.value⟩
    ∧ interpolateChartData [p] monthly =
      [⟨p.date, p.formattedDate,
        ((monthly.get ⟨j, hj⟩).shares : ℚ) * p.value + (monthly.get ⟨j, hj⟩).cashBalance,
        (monthly.get ⟨j, hj⟩).totalInvested, none, none, p.value⟩] := by
  have hpoint : interpolatePoint monthly p =
      ⟨p.date, p.formattedDate,
        ((monthly.get ⟨j, hj⟩).shares : ℚ) * p.value + (monthly.get ⟨j, hj⟩).cashBalance,
        (monthly.get ⟨j, hj⟩).totalInvested, none, none, p.value⟩ := by
    simp only [interpolatePoint]
    rw [matchingMonthlyIndex_latest monthly p.formattedDate j hs hj hle hmax]
    rw [List.getD_eq_get monthly dummyMonthly hj]
    rw [if_neg (hkey _ (List.get_mem monthly j hj))]
  exact ⟨hpoint, by simp [interpolateChartData, hpoint]⟩

theorem interpolate_intra_month_witness :
    interpolatePoint
        [⟨0, 0, 10, 5, 100, 53, 0, 3⟩, ⟨1, 10, 12, 6, 200, 75, 0, 3⟩]
        ⟨7, 5, 11, 0⟩ =
      ⟨7, 5, ((5 : ℤ) : ℚ) * 11 + 3, 100, none, none, 11⟩
    ∧ interpolateChartData [⟨7, 5, 11, 0⟩]
        [⟨0, 0, 10, 5, 100, 53, 0, 3⟩, ⟨1, 10, 12, 6, 200, 75, 0, 3⟩] =
      [⟨7, 5, ((5 : ℤ) : ℚ) * 11 + 3, 100, none, none, 11⟩] :=
  interpolate_intra_month
    [⟨0, 0, 10, 5, 100, 53, 0, 3⟩, ⟨1, 10, 12, 6, 200, 75, 0, 3⟩] ⟨7, 5, 11, 0⟩ 0
    (by decide) (by decide) (by decide) (by decide) (by decide)

/-- C7 counterexample: at a denser point whose period key exactly equals the
matched monthly state's key, the emitted display point does NOT carry over the
monthly `sharesHeld` and `totalDividendsReceived`: the optional fields stay
unset (`none`) in the source's exact-match branch. -/
theorem exact_match_omits_shares_counterexample :
    (⟨0, 0, 11, 0⟩ : StockDataPoint).date =
        (⟨0, 0, 10, 7, 100, 170, 3, 0⟩ : MonthlyDataPoint).date
    ∧ (interpolatePoint [⟨0, 0, 10, 7, 100, 170, 3, 0⟩] ⟨0, 0, 11, 0⟩).shares ≠
        some (⟨0, 0, 10, 7, 100, 170, 3, 0⟩ : MonthlyDataPoint).shares
    ∧ (interpolatePoint [⟨0, 0, 10, 7, 100, 170, 3, 0⟩] ⟨0, 0, 11, 0⟩).totalDividends ≠
        some (⟨0, 0, 10, 7, 100, 170, 3, 0⟩ : MonthlyDataPoint).totalDividends := by
  refine ⟨rfl, ?_, ?_⟩ <;> with_unfolding_all decide

/-- C7 amended: at a denser point whose period key equals the matched monthly
state's key, the emitted display point copies `portfolioValue` and
`totalContributed` from that state exactly and takes `price` from the denser
point, but the `sharesHeld` and `totalDividendsReceived` fields are omitted
(left unset), not copied. -/
theorem interpolate_exact_match (monthly : List MonthlyDataPoint) (p : StockDataPoint) (j : ℕ)
    (hs : List.Pairwise (fun a b => a.formattedDate < b.formattedDate) monthly)
    (hj : j < monthly.length)
    (hle : (monthly.get ⟨j, hj⟩).formattedDate ≤ p.formattedDate)
    (hmax : ∀ k (hk : k < monthly.length),
      (monthly.get ⟨k, hk⟩).formattedDate ≤ p.formattedDate → k ≤ j)
    (hkey : p.date = (monthly.get ⟨j, hj⟩).date) :
    interpolatePoint monthly p =
      ⟨p.date, p.formattedDate, (monthly.get ⟨j, hj⟩).portfolioValue,
        (monthly.get ⟨j, hj⟩).totalInvested, none, none, p.value⟩ := by
  simp only [interpolatePoint]
  rw [matchingMonthlyIndex_latest monthly p.formattedDate j hs hj hle hmax]
  rw [List.getD_eq_get monthly dummyMonthly hj]
  rw [if_pos hkey]

theorem interpolate_exact_match_witness :
    interpolatePoint
        [⟨0, 0, 10, 5, 100, 53, 2, 3⟩, ⟨1, 10, 12, 6, 200, 75, 2, 3⟩]
        ⟨1, 10, 12, 0⟩ =
      ⟨1, 10, 75, 200, none, none, 12⟩ :=
  interpolate_exact_match
    [⟨0, 0, 10, 5, 100, 53, 2, 3⟩, ⟨1, 10, 12, 6, 200, 75, 2, 3⟩] ⟨1, 10, 12, 0⟩ 1
    (by decide) (by decide) (by decide) (by decide) (by decide)

/-- C9 counterexample: for a period point strictly before the first monthly
boundary the interpolator does not fail; it emits a display point derived from
the first monthly state (the scan's index-0 fallback). -/
theorem before_first_no_failure_counterexample :
    (⟨5, 5, 11, 0⟩ : StockDataPoint).formattedDate <
        (⟨0, 10, 10, 4, 100, 43, 0, 3⟩ : MonthlyDataPoint).formattedDate
    ∧ interpolateChartData [⟨5, 5, 11, 0⟩] [⟨0, 10, 10, 4, 100, 43, 0, 3⟩] =
        [⟨5, 5, ((4 : ℤ) : ℚ) * 11 + 3, 100, none, none, 11⟩] := by
  refine ⟨by decide, ?_⟩
  with_unfolding_all decide

/-- C9 amended: a period point strictly before the first monthly boundary does
not make the interpolator fail fast; the scan's 0 fallback silently selects the
first (later) monthly state and a display point is emitted from it. -/
theorem before_first_uses_first_state (m0 : MonthlyDataPoint) (rest : List MonthlyDataPoint)
    (p : StockDataPoint) (hlt : p.formattedDate < m0.formattedDate) (hkey : p.date ≠ m0.date) :
    interpolatePoint (m0 :: rest) p =
      ⟨p.date, p.formattedDate, (m0.shares : ℚ) * p.value + m0.cashBalance,
        m0.totalInvested, none, none, p.value⟩ := by
  simp only [interpolatePoint]
  have hidx : matchingMonthlyIndex (m0 :: rest) p.formattedDate = 0 := by
    rw [matchingMonthlyIndex, scanMatch, if_neg (not_le.mpr hlt)]
  rw [hidx]
  rw [List.getD_cons_zero]
  rw [if_neg hkey]

theorem before_first_uses_first_state_witness :
    interpolatePoint [⟨0, 10, 10, 4, 100, 43, 0, 3⟩] ⟨5, 5, 11, 0⟩ =
      ⟨5, 5, ((4 : ℤ) : ℚ) * 11 + 3, 100, none, none, 11⟩ :=
  before_first_uses_first_state ⟨0, 10, 10, 4, 100, 43, 0, 3⟩ [] ⟨5, 5, 11, 0⟩
    (by decide) (by decide)

/-! ### Helper lemmas for the frame pacer -/

theorem loopIndices_length (s : ℕ) (hs : 0 < s) :
    ∀ (fuel N i : ℕ), N - i ≤ fuel → (loopIndices N s i).length = (N - i + s - 1) / s := by
  intro fuel
  induction fuel with
  | zero =>
      intro N i h
      rw [loopIndices]
      have hni : ¬ (0 < s ∧ i < N) := by omega
      rw [dif_neg hni]
      have h0 : N - i = 0 := by omega
      rw [h0]
      have h1 : (s - 1) / s = 0 := Nat.div_eq_of_lt (by omega)
      simp [h1]
  | succ fuel ih =>
      intro N i h
      rw [loopIndices]
      by_cases hc : 0 < s ∧ i < N
      · rw [dif_pos hc]
        have hrec := ih N (i + s) (by omega)
        simp only [List.length_cons, hrec]
        have ha : 1 ≤ N - i := by omega
        rcases le_or_lt (N - i) s with hle | hlt
        · have h1 : N - (i + s) = 0 := by omega
          rw [h1]
          have h2 : (0 + s - 1) / s = 0 := Nat.div_eq_of_lt (by omega)
          rw [h2]
          have h3 : (N - i + s - 1) / s = 1 := by
            apply Nat.div_eq_of_lt_le
            · omega
            · omega
          omega
        · have h1 : N - (i + s) + s - 1 + s = N - i + s - 1 := by omega
          have h2 : (N - i + s - 1) / s = (N - (i + s) + s - 1) / s + 1 := by
            rw [← h1, Nat.add_div_right _ hs]
          omega
      · rw [dif_neg hc]
        have h0 : N - i = 0 := by omega
        rw [h0]
        have h1 : (s - 1) / s = 0 := Nat.div_eq_of_lt (by omega)
        simp [h1]

theorem loopIndices_getLast (s : ℕ) (hs : 0 < s) :
    ∀ (fuel N i : ℕ), N - i ≤ fuel → i < N →
      ∀ (h : loopIndices N s i ≠ []),
        (loopIndices N s i).getLast h = i + s * ((N - 1 - i) / s) := by
  intro fuel
  induction fuel with
  | zero => intro N i h hi; omega
  | succ fuel ih =>
      intro N i h hi hne
      by_cases hc : i + s < N
      · have htail : loopIndices N s (i + s) ≠ [] := by
          rw [loopIndices, dif_pos ⟨hs, hc⟩]
          simp
        have hcons : loopIndices N s i = i :: loopIndices N s (i + s) := by
          rw [loopIndices, dif_pos ⟨hs, hi⟩]
        have hlast : (loopIndices N s i).getLast hne =
            (loopIndices N s (i + s)).getLast htail := by
          rw [List.getLast_congr _ _ hcons, List.getLast_cons htail]
        rw [hlast, ih N (i + s) (by omega) hc htail]
        have hge : s ≤ N - 1 - i := by omega
        have h1 : (N - 1 - i) / s = (N - 1 - i - s) / s + 1 := Nat.div_eq_sub_div hs hge
        have h2 : N - 1 - (i + s) = N - 1 - i - s := by omega
        rw [h2, h1]
        ring
      · have htail : loopIndices N s (i + s) = [] := by
          rw [loopIndices, dif_neg (by omega)]
        have hsingle : loopIndices N s i = [i] := by
          rw [loopIndices, dif_pos ⟨hs, hi⟩, htail]
        have h1 : (N - 1 - i) / s = 0 := Nat.div_eq_of_lt (by omega)
        rw [List.getLast_congr hne (by simp) hsingle]
        simp [h1]

theorem loopIndices_head (N s : ℕ) (hs : 0 < s) (hN : 0 < N) :
    loopIndices N s 0 = 0 :: loopIndices N s s := by
  rw [loopIndices, dif_pos ⟨hs, hN⟩, Nat.zero_add]

theorem frameStep_toNat (N : ℕ) (cf : ℤ) (hcf : 0 < cf) :
    (max 1 ⌊(N : ℚ) / (cf : ℚ)⌋).toNat = max 1 (N / cf.toNat) := by
  have hcfn : ((cf.toNat : ℕ) : ℤ) = cf := Int.toNat_of_nonneg hcf.le
  have h1 : ⌊(N : ℚ) / (cf : ℚ)⌋ = ((N : ℕ) : ℤ) / ((cf.toNat : ℕ) : ℤ) := by
    rw [← hcfn]
    push_cast
    exact_mod_cast Rat.floor_natCast_div_natCast N cf.toNat
  rw [h1, ← Int.ofNat_ediv]
  omega

theorem generateVideoFrames_eq (d : List ChartDataPoint) (Dc De : ℚ)
    (hcf : 0 < chartFramesOf Dc) :
    generateVideoFrames d Dc De =
      (loopIndices d.length (max 1 (d.length / (chartFramesOf Dc).toNat)) 0).map
        (fun i => ⟨d.take (i + 1), false⟩)
      ++ (List.range (⌊De * 30⌋).toNat).map (fun _ => ⟨d, true⟩) := by
  simp only [generateVideoFrames]
  rw [if_neg (by omega)]
  rw [frameStep_toNat d.length (chartFramesOf Dc) hcf]

theorem growthFilter (l : List ℕ) (d : List ChartDataPoint) (k : ℕ) :
    ((l.map (fun i => (⟨d.take (i + 1), false⟩ : FrameDescriptor))
      ++ (List.range k).map (fun _ => (⟨d, true⟩ : FrameDescriptor))).filter
        (fun f => !f.isFinal)) =
      l.map (fun i => (⟨d.take (i + 1), false⟩ : FrameDescriptor)) := by
  simp [List.filter_append, List.filter_map, Function.comp_def]

theorem freezeFilter (l : List ℕ) (d : List ChartDataPoint) (k : ℕ) :
    ((l.map (fun i => (⟨d.take (i + 1), false⟩ : FrameDescriptor))
      ++ (List.range k).map (fun _ => (⟨d, true⟩ : FrameDescriptor))).filter
        (fun f => f.isFinal)) =
      (List.range k).map (fun _ => (⟨d, true⟩ : FrameDescriptor)) := by
  simp [List.filter_append, List.filter_map, Function.comp_def]

theorem stepBound (N cf : ℕ) (hcf : 1 ≤ cf) :
    (N + max 1 (N / cf) - 1) / max 1 (N / cf) ≤ 2 * cf - 1 := by
  rcases lt_or_le N cf with hlt | hle
  · have hq : N / cf = 0 := Nat.div_eq_of_lt hlt
    rw [hq]
    simp only [Nat.max_self, max_eq_left (Nat.zero_le 1)]
    omega
  · have hq1 : 1 ≤ N / cf := (Nat.one_le_div_iff (by omega)).mpr hle
    have hmax : max 1 (N / cf) = N / cf := max_eq_right hq1
    rw [hmax]
    rw [Nat.div_le_iff_le_mul_add_pred (by omega)]
    set q := N / cf with hqdef
    have hmod : cf * q + N % cf = N := by rw [hqdef]; exact Nat.div_add_mod N cf
    have hmodlt : N % cf < cf := Nat.mod_lt _ (by omega)
    have hcomm : cf * q = q * cf := Nat.mul_comm cf q
    have h2 : q + cf ≤ q * cf + 1 := by
      rcases Nat.eq_or_lt_of_le hq1 with hq2 | hq2
      · rw [← hq2]; omega
      · rcases Nat.eq_or_lt_of_le hcf with hcf2 | hcf2
        · rw [← hcf2]; omega
        · have := Nat.add_le_mul hq2 hcf2
          omega
    have h4 : q * (2 * cf - 1) + q = 2 * (q * cf) := by
      have h5 : 2 * cf - 1 + 1 = 2 * cf := by omega
      calc q * (2 * cf - 1) + q = q * (2 * cf - 1 + 1) := (Nat.mul_succ _ _).symm
        _ = q * (2 * cf) := by rw [h5]
        _ = 2 * (q * cf) := by ring
    omega

set_option maxRecDepth 8000 in
/-- C5 counterexample: the total frame count is not `floor(D_chart*R) + floor(D_end*R)`
independent of the series length: a 1-point series with `D_chart = 20`,
`D_end = 3`, `R = 30` yields 91 frames, not 690. -/
theorem frame_total_not_fixed_counterexample :
    (generateVideoFrames [⟨0, 0, 1, 1, none, none, 1⟩] 20 3).length ≠
      ((⌊(20 : ℚ) * 30⌋).toNat + (⌊(3 : ℚ) * 30⌋).toNat) := by
  with_unfolding_all decide

/-- C5 amended: the freeze-frame count is exactly `floor(D_end*R)` (90 for
`D_end = 3`, `R = 30`), but the total frame count depends on the series length
`N`: it is `ceil(N / step) + floor(D_end*R)` with
`step = max(1, floor(N / 600))`, which equals 690 only for suitable `N`
(for example `N = 600`), not for every `N`. -/
theorem frame_totals (d : List ChartDataPoint) :
    (generateVideoFrames d 20 3).length =
      (d.length + max 1 (d.length / 600) - 1) / max 1 (d.length / 600) + 90
    ∧ ((generateVideoFrames d 20 3).filter (fun f => f.isFinal)).length = 90 := by
  have hcf : chartFramesOf 20 = 600 := by with_unfolding_all decide
  have hde : ((⌊(3 : ℚ) * 30⌋ : ℤ)).toNat = 90 := by with_unfolding_all decide
  have heq := generateVideoFrames_eq d 20 3 (by rw [hcf]; omega)
  rw [hcf, hde] at heq
  have htn : (600 : ℤ).toNat = 600 := rfl
  rw [htn] at heq
  have hs : 0 < max 1 (d.length / 600) := by omega
  constructor
  · rw [heq]
    rw [List.length_append, List.length_map, List.length_map, List.length_range]
    rw [loopIndices_length _ hs d.length d.length 0 (by omega)]
    rw [Nat.sub_zero]
  · rw [heq, freezeFilter]
    rw [List.length_map, List.length_range]

set_option maxRecDepth 8000 in
/-- C6 counterexample: with `N = 601` and `chartFrames = 600` the step is
`max(1, floor(601/600)) = 1` and 601 growth frames are emitted — more than
`chartFrames`. -/
theorem growth_frames_exceed_budget_counterexample :
    ¬ (((generateVideoFrames (List.replicate 601 ⟨0, 0, 1, 1, none, none, 1⟩) 20 3).filter
        (fun f => !f.isFinal)).length ≤ (chartFramesOf 20).toNat) := by
  have hcf : chartFramesOf 20 = 600 := by with_unfolding_all decide
  have heq := generateVideoFrames_eq (List.replicate 601 ⟨0, 0, 1, 1, none, none, 1⟩) 20 3
    (by rw [hcf]; omega)
  rw [hcf] at heq
  have htn : (600 : ℤ).toNat = 600 := rfl
  rw [htn] at heq
  rw [heq, growthFilter, List.length_map]
  rw [List.length_replicate]
  have hstep : max 1 (601 / 600) = 1 := rfl
  rw [hstep]
  rw [loopIndices_length 1 (by omega) 601 601 0 (by omega)]
  rw [hcf]
  decide

/-- C6 amended: the number of growth frames is `ceil(N / step)` with
`step = max(1, floor(N / chartFrames))`; it can exceed `chartFrames` (601
growth frames for `N = 601`, `chartFrames = 600`), but it is always at most
`2 * chartFrames - 1`. -/
theorem growth_frames_bound (d : List ChartDataPoint) (Dc De : ℚ)
    (hcf : 0 < chartFramesOf Dc) :
    ((generateVideoFrames d Dc De).filter (fun f => !f.isFinal)).length ≤
      2 * (chartFramesOf Dc).toNat - 1 := by
  rw [generateVideoFrames_eq d Dc De hcf, growthFilter, List.length_map]
  have hs : 0 < max 1 (d.length / (chartFramesOf Dc).toNat) := by omega
  rw [loopIndices_length _ hs d.length d.length 0 (by omega), Nat.sub_zero]
  exact stepBound d.length (chartFramesOf Dc).toNat (by omega)

theorem growth_frames_bound_witness :
    ((generateVideoFrames [⟨0, 0, 1, 1, none, none, 1⟩] 20 3).filter
        (fun f => !f.isFinal)).length ≤ 2 * (chartFramesOf 20).toNat - 1 :=
  growth_frames_bound [⟨0, 0, 1, 1, none, none, 1⟩] 20 3 (by with_unfolding_all decide)

theorem getLast?_map_eq {α β : Type} (f : α → β) :
    ∀ (l : List α), (l.map f).getLast? = l.getLast?.map f := by
  intro l
  induction l with
  | nil => rfl
  | cons a l ih =>
      cases l with
      | nil => rfl
      | cons b t =>
          rw [List.map_cons, List.map_cons, List.getLast?_cons_cons, List.getLast?_cons_cons]
          rw [← List.map_cons]
          exact ih

/-- C10: the first growth frame carries exactly the one-point prefix, the last
growth frame's prefix ends at index `s * floor((N-1)/s)` (so when `s > 1` up to
`s - 1` trailing points appear in no growth frame), and every freeze frame
carries the entire series, so the final data point is always shown in the
freeze frames. -/
theorem frame_prefix_coverage (d : List ChartDataPoint) (Dc De : ℚ)
    (hd : d ≠ []) (hcf : 0 < chartFramesOf Dc) :
    (generateVideoFrames d Dc De).head? = some ⟨d.take 1, false⟩
    ∧ ((generateVideoFrames d Dc De).filter (fun f => !f.isFinal)).getLast? =
        some ⟨d.take ((max 1 (d.length / (chartFramesOf Dc).toNat)) *
            ((d.length - 1) / (max 1 (d.length / (chartFramesOf Dc).toNat))) + 1), false⟩
    ∧ d.length - 1 - (max 1 (d.length / (chartFramesOf Dc).toNat)) *
          ((d.length - 1) / (max 1 (d.length / (chartFramesOf Dc).toNat)))
        ≤ (max 1 (d.length / (chartFramesOf Dc).toNat)) - 1
    ∧ ∀ f ∈ generateVideoFrames d Dc De, f.isFinal = true → f.frameData = d := by
  set s := max 1 (d.length / (chartFramesOf Dc).toNat) with hsdef
  have hs : 0 < s := by omega
  have hN : 0 < d.length := List.length_pos.mpr hd
  have heq := generateVideoFrames_eq d Dc De hcf
  rw [← hsdef] at heq
  refine ⟨?_, ?_, ?_, ?_⟩
  · rw [heq, loopIndices_head d.length s hs hN]
    rfl
  · rw [heq, growthFilter]
    have hne : loopIndices d.length s 0 ≠ [] := by
      rw [loopIndices_head d.length s hs hN]
      simp
    rw [getLast?_map_eq, List.getLast?_eq_getLast_of_ne_nil hne, Option.map_some']
    rw [loopIndices_getLast s hs d.length d.length 0 (by omega) hN hne]
    rw [Nat.zero_add, Nat.sub_zero]
  · have hmod := Nat.div_add_mod (d.length - 1) s
    have hlt := Nat.mod_lt (d.length - 1) hs
    omega
  · intro f hf hfin
    rw [heq] at hf
    rcases List.mem_append.mp hf with hg | hz
    · obtain ⟨i, _, rfl⟩ := List.mem_map.mp hg
      simp at hfin
    · obtain ⟨i, _, rfl⟩ := List.mem_map.mp hz
      rfl

theorem frame_prefix_coverage_witness :
    (generateVideoFrames [⟨0, 0, 1, 1, none, none, 1⟩] 20 3).head? =
        some ⟨[⟨0, 0, 1, 1, none, none, 1⟩].take 1, false⟩
    ∧ ((generateVideoFrames [⟨0, 0, 1, 1, none, none, 1⟩] 20 3).filter
          (fun f => !f.isFinal)).getLast? =
        some ⟨[⟨0, 0, 1, 1, none, none, 1⟩].take
            ((max 1 ([(⟨0, 0, 1, 1, none, none, 1⟩ : ChartDataPoint)].length /
                (chartFramesOf 20).toNat)) *
              (([(⟨0, 0, 1, 1, none, none, 1⟩ : ChartDataPoint)].length - 1) /
                (max 1 ([(⟨0, 0, 1, 1, none, none, 1⟩ : ChartDataPoint)].length /
                  (chartFramesOf 20).toNat))) + 1), false⟩
    ∧ [(⟨0, 0, 1, 1, none, none, 1⟩ : ChartDataPoint)].length - 1 -
          (max 1 ([(⟨0, 0, 1, 1, none, none, 1⟩ : ChartDataPoint)].length /
            (chartFramesOf 20).toNat)) *
          (([(⟨0, 0, 1, 1, none, none, 1⟩ : ChartDataPoint)].length - 1) /
            (max 1 ([(⟨0, 0, 1, 1, none, none, 1⟩ : ChartDataPoint)].length /
              (chartFramesOf 20).toNat)))
        ≤ (max 1 ([(⟨0, 0, 1, 1, none, none, 1⟩ : ChartDataPoint)].length /
            (chartFramesOf 20).toNat)) - 1
    ∧ ∀ f ∈ generateVideoFrames [⟨0, 0, 1, 1, none, none, 1⟩] 20 3,
        f.isFinal = true → f.frameData = [⟨0, 0, 1, 1, none, none, 1⟩] :=
  frame_prefix_coverage [⟨0, 0, 1, 1, none, none, 1⟩] 20 3 (by simp)
    (by with_unfolding_all decide)
